import Mathlib

/-!
# gitreader: the repository facade (`repo.go`)

A shallow embedding of `repo.go`: the loader chain (`Repo.LoadObject`), the ref
resolver (`Repo.ResolveRef`, `Repo.resolveIndirect`), the path resolver
(`Repo.Resolve`), `Repo.CatFile`, `OpenRepo` and `Repo.initLoaders`, followed by
theorems about them.

Conventions of the embedding.

* A Go `error` value is `Option Err` (`none` is `nil`).  The sentinels declared
  with `errors.New` are constructors of `Err`; Go compares them by identity,
  which is constructor equality here.
* A function of `repo.go` returning `(T, error)` returns the pair itself, so
  the value returned next to an error (`""`, `nil`) is visible.
* Code used by `repo.go` but declared elsewhere (the `Loader` implementations,
  the decoders `Object.Commit`, `Object.Tree`, `Object.Blob`, the file system)
  is a parameter; such a call yields either a value or an error (`Except`).
* Go strings are Lean strings (sequences of Unicode scalar values, that is,
  valid UTF-8); lengths and slices are in bytes as in Go.
* `Run` records how a call ends: it returns, it panics, or the bound on the
  depth of nested calls (fuel) is used up before it does either.
-/

namespace Gitreader

/-! ## Errors and outcomes -/

/-- An error reported by the operating system (`*os.PathError`). -/
structure PathError where
  Op : String
  Path : String
  Msg : String
deriving DecidableEq

/-- The error values that flow through `repo.go`. -/
inductive Err where
  | ErrNotExist
  | ErrUnknownRef
  | ErrNotCommit
  | ErrNotTree
  | ErrNotBlob
  | os (e : PathError)
  | other (msg : String)
deriving DecidableEq

/-- How a call ends. -/
inductive Run (α : Type) where
  | ret (v : α)
  | panic (msg : String)
  | outOfFuel
deriving DecidableEq

/-! ## Objects -/

structure Blob where
  Data : List UInt8
deriving DecidableEq

structure Commit where
  Tree : String
deriving DecidableEq

structure Entry where
  Mode : Nat
  Id : String
deriving DecidableEq

/-- The field `Entries` is a Go map from entry name to entry; the lookup
`tree.Entries[seg]` is `List.lookup`. -/
structure Tree where
  Entries : List (String × Entry)
deriving DecidableEq

/-- An object: its `Type` field (`Type_` here, `Type` being reserved) and what its
decoding methods `Commit()`, `Tree()` and `Blob()` return. -/
structure Object where
  Type_ : String
  Commit : Except Err Commit
  Tree : Except Err Tree
  Blob : Except Err Blob

/-- The `Loader` interface: `LoadObject(id string) (*Object, error)`. -/
abbrev Loader := String → Except Err Object

structure Repo where
  Base : String
  Loaders : List Loader

/-- A Go `(value, error)` pair made from the result of an external call. -/
def toPair {α : Type} : Except Err α → Option α × Option Err
  | .ok v => (some v, none)
  | .error e => (none, some e)

/-! ## Library functions used by `repo.go` -/

/-- The predicate `unicode.IsSpace`: the code points with the property
White_Space. -/
def isSpace (c : Char) : Bool :=
  let n := c.toNat
  (0x09 ≤ n && n ≤ 0x0D) || n == 0x20 || n == 0x85 || n == 0xA0 || n == 0x1680 ||
  (0x2000 ≤ n && n ≤ 0x200A) || n == 0x2028 || n == 0x2029 || n == 0x202F ||
  n == 0x205F || n == 0x3000

/-- The function `strings.TrimSpace`: leading and trailing white space removed. -/
def TrimSpace (s : String) : String :=
  ⟨((s.data.dropWhile isSpace).reverse.dropWhile isSpace).reverse⟩

/-- Splitting a sequence of characters at every `sep`; the result is never
empty. -/
def splitChars (sep : Char) : List Char → List (List Char)
  | [] => [[]]
  | c :: cs =>
    if c = sep then [] :: splitChars sep cs
    else
      match splitChars sep cs with
      | [] => [[c]]
      | s :: ss => (c :: s) :: ss

/-- The call `strings.Split(s, "/")`. -/
def Split (s : String) : List String :=
  (splitChars '/' s.data).map String.mk

/-- The call `strings.Join(elems, "/")`. -/
def joinSlash : List String → String
  | [] => ""
  | [e] => e
  | e :: rest => e ++ "/" ++ joinSlash rest

/-- One path element processed by `filepath.Clean`; `out` holds the elements
kept so far, last first. -/
def cleanStep (rooted : Bool) (out : List String) (elem : String) : List String :=
  if elem = "" ∨ elem = "." then out
  else if elem = ".." then
    match out with
    | [] => if rooted then [] else [".."]
    | top :: rest => if top = ".." then ".." :: out else rest
  else elem :: out

/-- The function `filepath.Clean` (Unix): empty and `.` elements dropped, `..`
cancelled against the element before it, `.` for an empty result. -/
def Clean (path : String) : String :=
  if path = "" then "."
  else
    let rooted := path.data.head? == some '/'
    let out := ((Split path).foldl (cleanStep rooted) []).reverse
    if rooted then "/" ++ joinSlash out
    else if out = [] then "." else joinSlash out

/-- The function `filepath.Join` (Unix): the elements from the first non-empty
one on, joined with `/` and cleaned; `""` when all are empty. -/
def Join (elem : List String) : String :=
  match elem.dropWhile (fun e => e == "") with
  | [] => ""
  | rest => Clean (joinSlash rest)

/-- The part of the file system `repo.go` reads: `ioutil.ReadFile`. -/
structure FS where
  ReadFile : String → Except PathError String

/-! ## Loader chain -/

/-- The loop of `Repo.LoadObject` over `r.Loaders`. -/
def loadFrom (id : String) : List Loader → Option Object × Option Err
  | [] => (none, some Err.ErrNotExist)
  | loader :: rest =>
    match loader id with
    | .error err => if err = Err.ErrNotExist then loadFrom id rest else (none, some err)
    | .ok obj => (some obj, none)

/-- Go: `func (r *Repo) LoadObject(id string) (*Object, error)`. -/
def Repo.LoadObject (r : Repo) (id : String) : Option Object × Option Err :=
  loadFrom id r.Loaders

/-! ## Ref resolver -/

/-- The package variable `refDirs`: the directories `heads` and `tags` of `refs`. -/
def refDirs : List String := ["heads", "tags"]

/-- The loop of `ResolveRef` over `refDirs`: the trimmed content of the first
readable file `base/refs/<dir>/<ref>`, or `none` when the loop runs to its end. -/
def readRefDirs (fs : FS) (base ref : String) : List String → Option String
  | [] => none
  | dir :: rest =>
    match fs.ReadFile (Join [base, "refs", dir, ref]) with
    | .error _ => readRefDirs fs base ref rest
    | .ok data => some (TrimSpace data)

mutual
/-- Go: `func (r *Repo) ResolveRef(ref string) (string, error)`. -/
def Repo.ResolveRef (fs : FS) (r : Repo) : Nat → String → Run (String × Option Err)
  | 0, _ => .outOfFuel
  | fuel + 1, ref =>
    if ref = "HEAD" then Repo.resolveIndirect fs r fuel (Join [r.Base, "HEAD"])
    else
      match readRefDirs fs r.Base ref refDirs with
      | some id => .ret (id, none)
      | none =>
        match fs.ReadFile (Join [r.Base, ref]) with
        | .ok data => .ret (TrimSpace data, none)
        | .error _ => .ret ("", some Err.ErrUnknownRef)
/-- Go: `func (r *Repo) resolveIndirect(path string) (string, error)`; the slice
`id[0:4]` panics when `id` has fewer than four bytes. -/
def Repo.resolveIndirect (fs : FS) (r : Repo) : Nat → String → Run (String × Option Err)
  | 0, _ => .outOfFuel
  | fuel + 1, path =>
    match fs.ReadFile path with
    | .error err => .ret ("", some (Err.os err))
    | .ok data =>
      let id := TrimSpace data
      if id.utf8ByteSize < 4 then .panic "slice bounds out of range"
      else if id.data.take 4 = ['r', 'e', 'f', ':'] then
        Repo.ResolveRef fs r fuel (TrimSpace ⟨id.data.drop 4⟩)
      else .ret (id, none)
end

/-! ## Path resolver -/

/-- The loop of `Resolve` over `segments[:len(segments)-1]` followed by the
lookup of `final`, from the current `tree`. -/
def resolveSegments (r : Repo) (final : String) : Tree → List String → Run (String × Option Err)
  | tree, [] =>
    match tree.Entries.lookup final with
    | none => .ret ("", some Err.ErrNotExist)
    | some nextId => .ret (nextId.Id, none)
  | tree, seg :: rest =>
    match tree.Entries.lookup seg with
    | none => .ret ("", some Err.ErrNotExist)
    | some nextId =>
      match r.LoadObject nextId.Id with
      | (_, some err) => .ret ("", some err)
      | (none, none) => .panic "nil pointer dereference"
      | (some obj, none) =>
        if obj.Type_ ≠ "tree" then .ret ("", some Err.ErrNotTree)
        else
          match obj.Tree with
          | .error err => .ret ("", some err)
          | .ok tree' => resolveSegments r final tree' rest

/-- Go: `func (r *Repo) Resolve(ref, path string) (string, error)`. -/
def Repo.Resolve (fs : FS) (r : Repo) (fuel : Nat) (ref path : String) :
    Run (String × Option Err) :=
  match r.ResolveRef fs fuel ref with
  | .outOfFuel => .outOfFuel
  | .panic msg => .panic msg
  | .ret (_, some err) => .ret ("", some err)
  | .ret (refId, none) =>
    match r.LoadObject refId with
    | (_, some err) => .ret ("", some err)
    | (none, none) => .panic "nil pointer dereference"
    | (some obj, none) =>
      if obj.Type_ ≠ "commit" then .ret ("", some Err.ErrNotCommit)
      else
        match obj.Commit with
        | .error err => .ret ("", some err)
        | .ok commit =>
          match r.LoadObject commit.Tree with
          | (_, some err) => .ret ("", some err)
          | (none, none) => .panic "nil pointer dereference"
          | (some treeObj, none) =>
            if treeObj.Type_ ≠ "tree" then .ret ("", some Err.ErrNotTree)
            else
              match treeObj.Tree with
              | .error err => .ret ("", some err)
              | .ok tree =>
                let segments := Split path
                match segments.getLast? with
                | none => .panic "slice bounds out of range"
                | some final => resolveSegments r final tree segments.dropLast

/-- Go: `func (r *Repo) CatFile(ref, path string) (*Blob, error)`. -/
def Repo.CatFile (fs : FS) (r : Repo) (fuel : Nat) (ref path : String) :
    Run (Option Blob × Option Err) :=
  match r.Resolve fs fuel ref path with
  | .outOfFuel => .outOfFuel
  | .panic msg => .panic msg
  | .ret (_, some err) => .ret (none, some err)
  | .ret (id, none) =>
    match r.LoadObject id with
    | (_, some err) => .ret (none, some err)
    | (none, none) => .panic "nil pointer dereference"
    | (some obj, none) =>
      if obj.Type_ ≠ "blob" then .ret (none, some Err.ErrNotBlob)
      else .ret (toPair obj.Blob)

/-! ## Opening a repository -/

/-- The scan of `filepath.Ext` from the end of the path: `rev` is what is left
of the path, last character first, `acc` the characters already passed. -/
def extScan : List Char → List Char → List Char
  | [], _ => []
  | c :: rev, acc =>
    if c = '/' then []
    else if c = '.' then '.' :: acc
    else extScan rev (c :: acc)

/-- The function `filepath.Ext`: the suffix that begins at the final dot of the
final element of the path, empty when that element has no dot. -/
def Ext (path : String) : String :=
  ⟨extScan path.data.reverse []⟩

/-- The slice `n[:len(n)-4]`, taken where `Ext(n)` is `.idx`: the last four
bytes are then the four characters of the extension. -/
def dropExt4 (n : String) : String :=
  ⟨n.data.take (n.data.length - 4)⟩

/-- What `OpenRepo` and `initLoaders` use besides `repo.go`: `os.Stat`,
`ioutil.ReadDir` (the names of the entries, in the order of the listing) and
the two loader constructors of the package, `&LooseObject` and `LoadPack`. -/
structure Host where
  Stat : String → Except PathError Unit
  ReadDir : String → Except PathError (List String)
  LooseObject : String → Loader
  LoadPack : String → Except Err Loader

/-- The loop of `initLoaders` over the entries of the pack directory; the
result `.error err` is the `return err` inside the loop. -/
def initPacks (h : Host) (packs : String) :
    List String → List Loader → Run (Except Err (List Loader))
  | [], loaders => .ret (.ok loaders)
  | n :: files, loaders =>
    if Ext n = ".idx" then
      if n.utf8ByteSize < 4 then .panic "slice bounds out of range"
      else
        match h.LoadPack (Join [packs, dropExt4 n]) with
        | .error err => .ret (.error err)
        | .ok pack => initPacks h packs files (loaders ++ [pack])
    else initPacks h packs files loaders

/-- Go: `func (r *Repo) initLoaders() error`; the repository returned with the
error is the receiver after the call. -/
def Repo.initLoaders (h : Host) (r : Repo) : Run (Repo × Option Err) :=
  let loaders := [h.LooseObject r.Base]
  let packs := Join [r.Base, "objects/pack"]
  match h.ReadDir packs with
  | .error _ => .ret (⟨r.Base, loaders⟩, none)
  | .ok files =>
    match initPacks h packs files loaders with
    | .outOfFuel => .outOfFuel
    | .panic msg => .panic msg
    | .ret (.error err) => .ret (r, some err)
    | .ret (.ok loaders') => .ret (⟨r.Base, loaders'⟩, none)

/-- Go: `func OpenRepo(path string) (*Repo, error)`. -/
def OpenRepo (h : Host) (path : String) : Run (Option Repo × Option Err) :=
  let dir := Join [path, ".git", "objects"]
  match h.Stat dir with
  | .error err => .ret (none, some (Err.os err))
  | .ok _ =>
    let repo : Repo := ⟨Join [path, ".git"], []⟩
    match repo.initLoaders h with
    | .outOfFuel => .outOfFuel
    | .panic msg => .panic msg
    | .ret (_, some err) => .ret (none, some err)
    | .ret (repo', none) => .ret (some repo', none)

/-! ## Vocabulary of the statements -/

/-- The object stored under `id` loads as a commit that decodes to `c`. -/
def LoadsCommit (r : Repo) (id : String) (c : Commit) : Prop :=
  ∃ obj : Object, r.LoadObject id = (some obj, none) ∧ obj.Type_ = "commit" ∧ obj.Commit = .ok c

/-- The object stored under `id` loads as a tree that decodes to `t`. -/
def LoadsTree (r : Repo) (id : String) (t : Tree) : Prop :=
  ∃ obj : Object, r.LoadObject id = (some obj, none) ∧ obj.Type_ = "tree" ∧ obj.Tree = .ok t

/-- The relation `TreePath r t segs t'`: starting from the tree `t`, every segment of `segs`
in turn names an entry of the current tree whose id loads as a tree, which
becomes the current tree; `t'` is the tree reached at the end. -/
inductive TreePath (r : Repo) : Tree → List String → Tree → Prop where
  | nil (t : Tree) : TreePath r t [] t
  | cons {t t' tEnd : Tree} {seg : String} {rest : List String} {e : Entry} :
      t.Entries.lookup seg = some e → LoadsTree r e.Id t' → TreePath r t' rest tEnd →
      TreePath r t (seg :: rest) tEnd

/-- The file `path` cannot be read. -/
def Unreadable (fs : FS) (path : String) : Prop :=
  ∃ e : PathError, fs.ReadFile path = .error e

/-- Of the files `base/refs/heads/<ref>`, `base/refs/tags/<ref>` and
`base/<ref>`, taken in this order, the first readable one has content `data`. -/
def FirstReadable (fs : FS) (base ref data : String) : Prop :=
  fs.ReadFile (Join [base, "refs", "heads", ref]) = .ok data ∨
  (Unreadable fs (Join [base, "refs", "heads", ref]) ∧
    fs.ReadFile (Join [base, "refs", "tags", ref]) = .ok data) ∨
  (Unreadable fs (Join [base, "refs", "heads", ref]) ∧
    Unreadable fs (Join [base, "refs", "tags", ref]) ∧
    fs.ReadFile (Join [base, ref]) = .ok data)

/-- The file `base/HEAD` is a symbolic ref that names `HEAD` itself: its trimmed
content is `ref:` followed by a target that trims to `HEAD`. -/
def HeadNamesHead (fs : FS) (base : String) : Prop :=
  ∃ content rest : String, fs.ReadFile (Join [base, "HEAD"]) = .ok content ∧
    TrimSpace content = "ref:" ++ rest ∧ TrimSpace rest = "HEAD"

/-- The call `ResolveRef(ref)` is still running at every bound on the depth of
nested calls: it never returns and never panics. -/
def NeverEnds (fs : FS) (r : Repo) (ref : String) : Prop :=
  ∀ fuel : Nat, r.ResolveRef fs fuel ref = .outOfFuel

/-- The entries of a directory listing whose extension is `.idx`, in the order
of the listing. -/
def idxEntries (files : List String) : List String :=
  files.filter (fun n => decide (Ext n = ".idx"))

/-- The loader `p` is the pack loader built from the entry `n` of the directory
`packs`: `LoadPack` of the path of `n` without its extension. -/
def PackOf (h : Host) (packs n : String) (p : Loader) : Prop :=
  h.LoadPack (Join [packs, dropExt4 n]) = .ok p

/-! ## A small repository used to instantiate the statements

`HEAD` is symbolic and names `refs/heads/master`; the commit has a root tree
with a file `Procfile` and a directory `app` holding `config.rb`; the tag
`before` names an annotated tag object; the branch `sym` is a symbolic ref. -/

def fixtureFS : FS := ⟨fun p =>
  if p = "/proj/.git/HEAD" then .ok "ref: refs/heads/master\n"
  else if p = "/proj/.git/refs/heads/master" then .ok "bdae0e92f4a7ca0ec05b6c2decab9dc18361750b\n"
  else if p = "/proj/.git/refs/tags/before" then .ok "6fe9de222caf76a787e0df553264d0d9f3bc4ead\n"
  else if p = "/proj/.git/refs/heads/sym" then .ok "ref: refs/heads/master\n"
  else .error ⟨"open", p, "no such file or directory"⟩⟩

def fixtureAppTree : Tree :=
  ⟨[("config.rb", ⟨0o100644, "ce013625030ba8dba906f756967f9e9ca394464a"⟩)]⟩

def fixtureRootTree : Tree :=
  ⟨[("Procfile", ⟨0o100644, "467c21715563cbf5bf52ae79616e02914b89e9f1"⟩),
    ("app", ⟨0o40000, "aaaaaaaaaaaaaaaaaaaaaaaaaaaaaaaaaaaaaaaa"⟩)]⟩

def fixtureCommit : Commit := ⟨"bbbbbbbbbbbbbbbbbbbbbbbbbbbbbbbbbbbbbbbb"⟩

def fixtureBlob : Blob := ⟨[119, 101, 98, 58, 32, 112, 117, 109, 97, 10]⟩

def commitObject (c : Commit) : Object :=
  ⟨"commit", .ok c, .error (.other "not a tree"), .error (.other "not a blob")⟩

def treeObject (t : Tree) : Object :=
  ⟨"tree", .error (.other "not a commit"), .ok t, .error (.other "not a blob")⟩

def blobObject (b : Blob) : Object :=
  ⟨"blob", .error (.other "not a commit"), .error (.other "not a tree"), .ok b⟩

def tagObject : Object :=
  ⟨"tag", .error (.other "not a commit"), .error (.other "not a tree"), .error (.other "not a blob")⟩

/-- The loose-object loader of the fixture: the commit, the tag and the blob. -/
def fixtureLoose : Loader := fun id =>
  if id = "bdae0e92f4a7ca0ec05b6c2decab9dc18361750b" then .ok (commitObject fixtureCommit)
  else if id = "6fe9de222caf76a787e0df553264d0d9f3bc4ead" then .ok tagObject
  else if id = "467c21715563cbf5bf52ae79616e02914b89e9f1" then .ok (blobObject fixtureBlob)
  else .error Err.ErrNotExist

/-- The pack loader of the fixture: the two trees. -/
def fixturePack : Loader := fun id =>
  if id = "bbbbbbbbbbbbbbbbbbbbbbbbbbbbbbbbbbbbbbbb" then .ok (treeObject fixtureRootTree)
  else if id = "aaaaaaaaaaaaaaaaaaaaaaaaaaaaaaaaaaaaaaaa" then .ok (treeObject fixtureAppTree)
  else .error Err.ErrNotExist

def fixtureRepo : Repo := ⟨"/proj/.git", [fixtureLoose, fixturePack]⟩

/-- A git directory in which a file `refs/heads/refs/heads/master` exists next
to the branch `refs/heads/master` that `HEAD` names. -/
def shadowFS : FS := ⟨fun p =>
  if p = "/proj/.git/HEAD" then .ok "ref: refs/heads/master\n"
  else if p = "/proj/.git/refs/heads/master" then .ok "bdae0e92f4a7ca0ec05b6c2decab9dc18361750b\n"
  else if p = "/proj/.git/refs/heads/refs/heads/master" then
    .ok "6fe9de222caf76a787e0df553264d0d9f3bc4ead\n"
  else .error ⟨"open", p, "no such file or directory"⟩⟩

/-- A git directory without any ref file, in particular without `HEAD`. -/
def bareFS : FS := ⟨fun p => .error ⟨"open", p, "no such file or directory"⟩⟩

def bareRepo : Repo := ⟨"/proj.git", [fixtureLoose, fixturePack]⟩

/-- A git directory whose only ref file is `HEAD`, with the given content. -/
def headFS (content : String) : FS := ⟨fun p =>
  if p = "/proj/.git/HEAD" then .ok content
  else .error ⟨"open", p, "no such file or directory"⟩⟩

/-- A loader that has no object. -/
def emptyPack : Loader := fun _ => .error Err.ErrNotExist

/-- The host of the fixture: the working tree `/proj` with two packs, and the
bare repository `/proj.git`, which has `objects` but no `.git`. -/
def fixtureHost : Host where
  Stat := fun p =>
    if p = "/proj/.git/objects" ∨ p = "/proj.git/objects" then .ok ()
    else .error ⟨"stat", p, "no such file or directory"⟩
  ReadDir := fun p =>
    if p = "/proj/.git/objects/pack" then
      .ok ["pack-1.idx", "pack-1.pack", "pack-2.idx", "pack-2.pack"]
    else .error ⟨"open", p, "no such file or directory"⟩
  LooseObject := fun _ => fixtureLoose
  LoadPack := fun p =>
    if p = "/proj/.git/objects/pack/pack-1" then .ok fixturePack
    else if p = "/proj/.git/objects/pack/pack-2" then .ok emptyPack
    else .error (Err.other "cannot load pack")

/-! ## Theorems -/

/-- C1: `Repo.LoadObject(id)` returns `ErrNotExist` when every loader returns
`ErrNotExist` (the empty list included); otherwise it returns the result (the
object, or the error) of the first loader in list order whose result is not
`ErrNotExist`, whatever the later loaders are. -/
theorem LoadObject_first_wins (base id : String) :
    (∀ loaders : List Loader, (∀ l ∈ loaders, l id = .error Err.ErrNotExist) →
        Repo.LoadObject ⟨base, loaders⟩ id = (none, some Err.ErrNotExist)) ∧
    (∀ (pre post : List Loader) (l : Loader),
        (∀ p ∈ pre, p id = .error Err.ErrNotExist) →
        l id ≠ .error Err.ErrNotExist →
        Repo.LoadObject ⟨base, pre ++ l :: post⟩ id = toPair (l id)) := by
  constructor
  · intro loaders
    induction loaders with
    | nil => intro _; rfl
    | cons l rest ih =>
      intro h
      have hl := h l (List.mem_cons_self _ _)
      have hr := ih (fun x hx => h x (List.mem_cons_of_mem _ hx))
      simp only [Repo.LoadObject] at hr ⊢
      simp [loadFrom, hl, hr]
  · intro pre post l hpre hl
    induction pre with
    | nil =>
      simp only [Repo.LoadObject, List.nil_append, loadFrom]
      cases hres : l id with
      | ok obj => simp [toPair]
      | error e =>
        have : e ≠ Err.ErrNotExist := by
          intro he; apply hl; rw [hres, he]
        simp [toPair, this]
    | cons p rest ih =>
      have hp := hpre p (List.mem_cons_self _ _)
      have hr := ih (fun x hx => hpre x (List.mem_cons_of_mem _ hx))
      simp only [Repo.LoadObject] at hr ⊢
      simp [loadFrom, hp, hr]

/-- The theorem `LoadObject_first_wins` at the fixture: the loose loader does not
have the root tree, the pack loader does. -/
theorem LoadObject_first_wins_witness :
    Repo.LoadObject ⟨"/proj/.git", [fixtureLoose] ++ fixturePack :: [fixtureLoose]⟩
        "bbbbbbbbbbbbbbbbbbbbbbbbbbbbbbbbbbbbbbbb" =
      toPair (fixturePack "bbbbbbbbbbbbbbbbbbbbbbbbbbbbbbbbbbbbbbbb") :=
  (LoadObject_first_wins "/proj/.git" "bbbbbbbbbbbbbbbbbbbbbbbbbbbbbbbbbbbbbbbb").2
    [fixtureLoose] [fixtureLoose] fixturePack
    (by intro p hp; rw [List.mem_singleton] at hp; subst hp; rfl)
    (by intro h; exact absurd h (by simp [fixturePack]))

/-! ### Splitting a path -/

theorem splitChars_of_not_mem (sep : Char) (s : List Char) (h : sep ∉ s) :
    splitChars sep s = [s] := by
  induction s with
  | nil => rfl
  | cons c cs ih =>
    have hc : c ≠ sep := fun hc => h (hc ▸ List.mem_cons_self _ _)
    have hcs : sep ∉ cs := fun hm => h (List.mem_cons_of_mem _ hm)
    simp [splitChars, hc, ih hcs]

theorem splitChars_append_sep (sep : Char) (s t : List Char) (h : sep ∉ s) :
    splitChars sep (s ++ sep :: t) = s :: splitChars sep t := by
  induction s with
  | nil => simp [splitChars]
  | cons c cs ih =>
    have hc : c ≠ sep := fun hc => h (hc ▸ List.mem_cons_self _ _)
    have hcs : sep ∉ cs := fun hm => h (List.mem_cons_of_mem _ hm)
    simp [splitChars, hc, ih hcs]

/-- Splitting undoes joining: `strings.Split(s1/.../sn, "/")` is `[s1, ..., sn]`
when no segment contains a slash. -/
theorem Split_joinSlash (segs : List String) (hne : segs ≠ [])
    (h : ∀ s ∈ segs, '/' ∉ s.data) : Split (joinSlash segs) = segs := by
  induction segs with
  | nil => exact absurd rfl hne
  | cons e rest ih =>
    have he : '/' ∉ e.data := h e (List.mem_cons_self _ _)
    cases rest with
    | nil => simp [joinSlash, Split, splitChars_of_not_mem _ _ he]
    | cons e' rest' =>
      have ih' := ih (List.cons_ne_nil _ _) (fun s hs => h s (List.mem_cons_of_mem _ hs))
      simp only [Split] at ih' ⊢
      simp only [joinSlash, String.data_append]
      rw [List.append_assoc, List.singleton_append, splitChars_append_sep _ _ _ he,
        List.map_cons, ih']

/-! ### The path resolver -/

/-- Once the ref resolves to a commit with a loadable root tree, `Resolve` is
the walk over the segments of the path from that tree. -/
theorem Resolve_of_root (fs : FS) (r : Repo) (fuel : Nat) (ref path refId : String)
    (c : Commit) (T0 : Tree)
    (href : r.ResolveRef fs fuel ref = .ret (refId, none))
    (hc : LoadsCommit r refId c) (ht : LoadsTree r c.Tree T0) :
    r.Resolve fs fuel ref path =
      match (Split path).getLast? with
      | none => .panic "slice bounds out of range"
      | some final => resolveSegments r final T0 (Split path).dropLast := by
  obtain ⟨cobj, hcl, hcty, hcd⟩ := hc
  obtain ⟨tobj, htl, htty, htd⟩ := ht
  simp [Repo.Resolve, href, hcl, hcty, hcd, htl, htty, htd]

/-- The loop follows a path of loadable trees. -/
theorem resolveSegments_append (r : Repo) (final : String) {t t' : Tree}
    {init : List String} (rest : List String) (h : TreePath r t init t') :
    resolveSegments r final t (init ++ rest) = resolveSegments r final t' rest := by
  induction h with
  | nil t => rfl
  | cons hlook hload _ ih =>
    obtain ⟨obj, hl, hty, hd⟩ := hload
    simp [resolveSegments, hlook, hl, hty, hd, ih]

/-- C2: when `ResolveRef(ref)` yields an id that loads as a commit whose tree
id loads as a tree `T0`, every non-terminal segment of `s1/.../sn` names an
entry of the current tree whose id loads as a tree, and the terminal segment
names an entry `e` of the last tree, `Resolve(ref, path)` returns `e.Id` and no
error; nothing is assumed about the object stored under `e.Id`. -/
theorem Resolve_returns_terminal_entry (fs : FS) (r : Repo) (fuel : Nat)
    (ref refId : String) (c : Commit) (T0 T : Tree) (init : List String) (last : String)
    (e : Entry)
    (href : r.ResolveRef fs fuel ref = .ret (refId, none))
    (hc : LoadsCommit r refId c) (ht : LoadsTree r c.Tree T0)
    (hseg : ∀ s ∈ init ++ [last], '/' ∉ s.data)
    (hwalk : TreePath r T0 init T)
    (hlast : T.Entries.lookup last = some e) :
    r.Resolve fs fuel ref (joinSlash (init ++ [last])) = .ret (e.Id, none) := by
  rw [Resolve_of_root fs r fuel ref _ refId c T0 href hc ht,
    Split_joinSlash _ (by simp) hseg]
  have h := resolveSegments_append r last [] hwalk
  rw [List.append_nil] at h
  simp [h, resolveSegments, hlast]

/-- The theorem `Resolve_returns_terminal_entry` at the fixture:
`Resolve("HEAD", "app/config.rb")`. -/
theorem Resolve_returns_terminal_entry_witness :
    fixtureRepo.Resolve fixtureFS 3 "HEAD" (joinSlash (["app"] ++ ["config.rb"])) =
      .ret ("ce013625030ba8dba906f756967f9e9ca394464a", none) :=
  Resolve_returns_terminal_entry fixtureFS fixtureRepo 3 "HEAD"
    "bdae0e92f4a7ca0ec05b6c2decab9dc18361750b" fixtureCommit fixtureRootTree fixtureAppTree
    ["app"] "config.rb" ⟨0o100644, "ce013625030ba8dba906f756967f9e9ca394464a"⟩
    (by decide)
    ⟨commitObject fixtureCommit, rfl, rfl, rfl⟩
    ⟨treeObject fixtureRootTree, rfl, rfl, rfl⟩
    (by decide)
    (TreePath.cons
      (show fixtureRootTree.Entries.lookup "app" =
        some ⟨0o40000, "aaaaaaaaaaaaaaaaaaaaaaaaaaaaaaaaaaaaaaaa"⟩ from rfl)
      ⟨treeObject fixtureAppTree, rfl, rfl, rfl⟩ (TreePath.nil _))
    rfl

/-- C3: if `Resolve(ref, path)` fails with `e` then `CatFile(ref, path)` fails
with `e`; if `Resolve` returns `id` and `LoadObject(id)` yields an object whose
type is not `blob` then `CatFile` fails with `ErrNotBlob`; and whenever
`CatFile` returns a blob without error, the object loaded at the id returned by
`Resolve(ref, path)` has type `blob` and the result is that object's `Blob()`. -/
theorem CatFile_requires_blob (fs : FS) (r : Repo) (fuel : Nat) (ref path : String) :
    (∀ (v : String) (e : Err), r.Resolve fs fuel ref path = .ret (v, some e) →
        r.CatFile fs fuel ref path = .ret (none, some e)) ∧
    (∀ (id : String) (obj : Object), r.Resolve fs fuel ref path = .ret (id, none) →
        r.LoadObject id = (some obj, none) → obj.Type_ ≠ "blob" →
        r.CatFile fs fuel ref path = .ret (none, some Err.ErrNotBlob)) ∧
    (∀ b : Blob, r.CatFile fs fuel ref path = .ret (some b, none) →
        ∃ (id : String) (obj : Object), r.Resolve fs fuel ref path = .ret (id, none) ∧
          r.LoadObject id = (some obj, none) ∧ obj.Type_ = "blob" ∧ obj.Blob = .ok b) := by
  refine ⟨?_, ?_, ?_⟩
  · intro v e h
    simp [Repo.CatFile, h]
  · intro id obj h hl hty
    simp [Repo.CatFile, h, hl, hty]
  · intro b h
    unfold Repo.CatFile at h
    cases hR : r.Resolve fs fuel ref path with
    | outOfFuel => simp [hR] at h
    | panic msg => simp [hR] at h
    | ret v =>
      obtain ⟨id, oe⟩ := v
      cases oe with
      | some e => simp [hR] at h
      | none =>
        refine ⟨id, ?_⟩
        rw [hR] at h
        simp only at h
        cases hL : r.LoadObject id with
        | mk oo oerr =>
          cases oerr with
          | some e => simp [hL] at h
          | none =>
            cases oo with
            | none => simp [hL] at h
            | some obj =>
              refine ⟨obj, rfl, rfl, ?_⟩
              simp only [hL] at h
              by_cases hty : obj.Type_ = "blob"
              · refine ⟨hty, ?_⟩
                simp only [hty, ne_eq, not_true_eq_false, if_false] at h
                cases hB : obj.Blob with
                | error e => simp [hB, toPair] at h
                | ok b' =>
                  simp only [hB, toPair, Run.ret.injEq, Prod.mk.injEq, Option.some.injEq,
                    and_true] at h
                  rw [h]
              · simp [hty] at h

/-- The theorem `CatFile_requires_blob` at the fixture: `CatFile("HEAD", "app")`
fails with `ErrNotBlob`, as `app` is a tree. -/
theorem CatFile_requires_blob_witness :
    fixtureRepo.CatFile fixtureFS 3 "HEAD" "app" = .ret (none, some Err.ErrNotBlob) :=
  (CatFile_requires_blob fixtureFS fixtureRepo 3 "HEAD" "app").2.1
    "aaaaaaaaaaaaaaaaaaaaaaaaaaaaaaaaaaaaaaaa" (treeObject fixtureAppTree)
    (by decide) rfl (by decide)

/-- The segments before the failing one are walked, then the failing segment
is looked up: as a non-terminal segment when others follow, as the terminal
segment otherwise. -/
theorem Resolve_at_segment (fs : FS) (r : Repo) (fuel : Nat) (ref refId : String)
    (c : Commit) (T0 T : Tree) (init : List String) (s : String) (rest : List String)
    (href : r.ResolveRef fs fuel ref = .ret (refId, none))
    (hc : LoadsCommit r refId c) (ht : LoadsTree r c.Tree T0)
    (hseg : ∀ x ∈ init ++ s :: rest, '/' ∉ x.data)
    (hwalk : TreePath r T0 init T) :
    (rest = [] ∧ r.Resolve fs fuel ref (joinSlash (init ++ s :: rest)) =
        resolveSegments r s T []) ∨
    (∃ (mid : List String) (final : String), rest = mid ++ [final] ∧
        r.Resolve fs fuel ref (joinSlash (init ++ s :: rest)) =
          resolveSegments r final T (s :: mid)) := by
  rw [Resolve_of_root fs r fuel ref _ refId c T0 href hc ht,
    Split_joinSlash _ (by simp) hseg]
  rcases List.eq_nil_or_concat rest with hnil | ⟨mid, final, hcat⟩
  · left
    subst hnil
    have h := resolveSegments_append r s [] hwalk
    rw [List.append_nil] at h
    simp [h]
  · right
    refine ⟨mid, final, by simpa using hcat, ?_⟩
    have hrest : rest = mid ++ [final] := by simpa using hcat
    subst hrest
    have h := resolveSegments_append r final (s :: mid) hwalk
    have hsplit : init ++ s :: (mid ++ [final]) = (init ++ s :: mid) ++ [final] := by simp
    rw [hsplit, List.getLast?_concat, List.dropLast_concat]
    exact h

/-- C4: when the ref resolves to a commit with a loadable root tree and the
segments before `s` are walked through loadable trees, `Resolve` fails with
`ErrNotExist` if `s` (terminal or not) is absent from the current tree, and
fails with `ErrNotTree` if `s` is a non-terminal segment that is present but
whose object has a type other than `tree`; the string returned with the error
is empty. -/
theorem Resolve_first_failing_segment (fs : FS) (r : Repo) (fuel : Nat)
    (ref refId : String) (c : Commit) (T0 T : Tree) (init : List String) (s : String)
    (rest : List String)
    (href : r.ResolveRef fs fuel ref = .ret (refId, none))
    (hc : LoadsCommit r refId c) (ht : LoadsTree r c.Tree T0)
    (hseg : ∀ x ∈ init ++ s :: rest, '/' ∉ x.data)
    (hwalk : TreePath r T0 init T) :
    (T.Entries.lookup s = none →
        r.Resolve fs fuel ref (joinSlash (init ++ s :: rest)) =
          .ret ("", some Err.ErrNotExist)) ∧
    (∀ (e : Entry) (obj : Object), rest ≠ [] → T.Entries.lookup s = some e →
        r.LoadObject e.Id = (some obj, none) → obj.Type_ ≠ "tree" →
        r.Resolve fs fuel ref (joinSlash (init ++ s :: rest)) =
          .ret ("", some Err.ErrNotTree)) := by
  have key := Resolve_at_segment fs r fuel ref refId c T0 T init s rest href hc ht hseg hwalk
  constructor
  · intro hnone
    rcases key with ⟨_, h⟩ | ⟨mid, final, _, h⟩
    · rw [h]; simp [resolveSegments, hnone]
    · rw [h]; simp [resolveSegments, hnone]
  · intro e obj hne hlook hload hty
    rcases key with ⟨hnil, _⟩ | ⟨mid, final, _, h⟩
    · exact absurd hnil hne
    · rw [h]; simp [resolveSegments, hlook, hload, hty]

/-- The theorem `Resolve_first_failing_segment` at the fixture: `Procfile` is a
blob, so `Resolve("HEAD", "app/Procfile/x")`, whose segment `Procfile` is absent
from the tree `app`, fails with `ErrNotExist`. -/
theorem Resolve_first_failing_segment_witness :
    fixtureRepo.Resolve fixtureFS 3 "HEAD" (joinSlash (["app"] ++ "Procfile" :: ["x"])) =
      .ret ("", some Err.ErrNotExist) :=
  (Resolve_first_failing_segment fixtureFS fixtureRepo 3 "HEAD"
    "bdae0e92f4a7ca0ec05b6c2decab9dc18361750b" fixtureCommit fixtureRootTree fixtureAppTree
    ["app"] "Procfile" ["x"]
    (by decide)
    ⟨commitObject fixtureCommit, rfl, rfl, rfl⟩
    ⟨treeObject fixtureRootTree, rfl, rfl, rfl⟩
    (by decide)
    (TreePath.cons
      (show fixtureRootTree.Entries.lookup "app" =
        some ⟨0o40000, "aaaaaaaaaaaaaaaaaaaaaaaaaaaaaaaaaaaaaaaa"⟩ from rfl)
      ⟨treeObject fixtureAppTree, rfl, rfl, rfl⟩ (TreePath.nil _))).1 rfl

/-- C5: if `ResolveRef(ref)` yields an id whose loaded object has a type other
than `commit`, `Resolve(ref, path)` fails with `ErrNotCommit` for every path;
if the object is a commit and the object loaded at its tree id has a type other
than `tree`, `Resolve` fails with `ErrNotTree` for every path. -/
theorem Resolve_requires_commit_and_tree (fs : FS) (r : Repo) (fuel : Nat)
    (ref refId : String)
    (href : r.ResolveRef fs fuel ref = .ret (refId, none)) :
    (∀ obj : Object, r.LoadObject refId = (some obj, none) → obj.Type_ ≠ "commit" →
        ∀ path : String, r.Resolve fs fuel ref path = .ret ("", some Err.ErrNotCommit)) ∧
    (∀ (c : Commit) (treeObj : Object), LoadsCommit r refId c →
        r.LoadObject c.Tree = (some treeObj, none) → treeObj.Type_ ≠ "tree" →
        ∀ path : String, r.Resolve fs fuel ref path = .ret ("", some Err.ErrNotTree)) := by
  constructor
  · intro obj hl hty path
    simp [Repo.Resolve, href, hl, hty]
  · intro c treeObj hc hl hty path
    obtain ⟨cobj, hcl, hcty, hcd⟩ := hc
    simp [Repo.Resolve, href, hcl, hcty, hcd, hl, hty]

/-- The theorem `Resolve_requires_commit_and_tree` at the fixture: the tag
`before` names an annotated tag object, so `Resolve("before", "Procfile")` fails
with `ErrNotCommit`. -/
theorem Resolve_requires_commit_and_tree_witness :
    fixtureRepo.Resolve fixtureFS 3 "before" "Procfile" = .ret ("", some Err.ErrNotCommit) :=
  (Resolve_requires_commit_and_tree fixtureFS fixtureRepo 3 "before"
    "6fe9de222caf76a787e0df553264d0d9f3bc4ead" (by decide)).1 tagObject rfl (by decide)
    "Procfile"

/-! ### The ref resolver -/

/-- A ref other than `HEAD`: the loop over `refDirs`, then `base/<ref>`. -/
theorem ResolveRef_of_ne_HEAD (fs : FS) (r : Repo) (fuel : Nat) (ref : String)
    (hne : ref ≠ "HEAD") :
    r.ResolveRef fs (fuel + 1) ref =
      match readRefDirs fs r.Base ref refDirs with
      | some id => .ret (id, none)
      | none =>
        match fs.ReadFile (Join [r.Base, ref]) with
        | .ok data => .ret (TrimSpace data, none)
        | .error _ => .ret ("", some Err.ErrUnknownRef) := by
  simp [Repo.ResolveRef, hne]

/-- The ref `HEAD`: `resolveIndirect` on `base/HEAD`. -/
theorem ResolveRef_HEAD_eq (fs : FS) (r : Repo) (fuel : Nat) :
    r.ResolveRef fs (fuel + 1) "HEAD" = r.resolveIndirect fs fuel (Join [r.Base, "HEAD"]) := by
  simp [Repo.ResolveRef]

/-- Trimming on the right keeps a prefix that ends in a character that is not
white space. -/
theorem trimRight_keeps (a b : List Char) (c : Char) (hc : isSpace c = false) :
    ∃ b' : List Char,
      (((a ++ [c]) ++ b).reverse.dropWhile isSpace).reverse = (a ++ [c]) ++ b' := by
  have key : ∀ x : List Char, ∃ x' : List Char,
      (x ++ c :: a.reverse).dropWhile isSpace = x' ++ c :: a.reverse := by
    intro x
    induction x with
    | nil => exact ⟨[], by simp [List.dropWhile, hc]⟩
    | cons d ds ih =>
      by_cases hd : isSpace d = true
      · obtain ⟨x', hx'⟩ := ih
        exact ⟨x', by simp [List.dropWhile, hd, hx']⟩
      · exact ⟨d :: ds, by simp [List.dropWhile, hd]⟩
  obtain ⟨x', hx'⟩ := key b.reverse
  refine ⟨x'.reverse, ?_⟩
  have : ((a ++ [c]) ++ b).reverse = b.reverse ++ c :: a.reverse := by simp
  rw [this, hx']
  simp

/-- The trimmed form of a content that begins with `ref: ` still begins with
`ref:`. -/
theorem TrimSpace_keeps_ref (t : String) :
    (TrimSpace ("ref: " ++ t)).data.take 4 = ['r', 'e', 'f', ':'] := by
  have hdata : ("ref: " ++ t).data = (['r', 'e', 'f'] ++ [':']) ++ (' ' :: t.data) := by
    rw [String.data_append]; rfl
  have hlead : (("ref: " ++ t).data.dropWhile isSpace) = ("ref: " ++ t).data := by
    rw [hdata]; rfl
  obtain ⟨b', hb'⟩ := trimRight_keeps ['r', 'e', 'f'] (' ' :: t.data) ':' (by decide)
  simp only [TrimSpace, hlead]
  rw [hdata, hb']
  rfl

/-- A ref other than `HEAD` resolves to the trimmed content of the first
readable file, whatever that content is. -/
theorem ResolveRef_of_FirstReadable (fs : FS) (r : Repo) (fuel : Nat) (ref data : String)
    (hne : ref ≠ "HEAD") (h : FirstReadable fs r.Base ref data) :
    r.ResolveRef fs (fuel + 1) ref = .ret (TrimSpace data, none) := by
  rw [ResolveRef_of_ne_HEAD fs r fuel ref hne]
  rcases h with h1 | ⟨⟨e1, h1⟩, h2⟩ | ⟨⟨e1, h1⟩, ⟨e2, h2⟩, h3⟩
  · simp [refDirs, readRefDirs, h1]
  · simp [refDirs, readRefDirs, h1, h2]
  · simp [refDirs, readRefDirs, h1, h2, h3]

/-- C6, as the code has it: for a ref `r` other than `HEAD` whose first
readable file (`refs/heads/r`, else `refs/tags/r`, else `base/r`) has a content
that begins with `ref: ` followed by a target `t`, `ResolveRef(r)` does not
recurse on the target: it returns, with no error, the trimmed content of that
file, which still begins with `ref:`. -/
theorem ResolveRef_symbolic_not_chased (fs : FS) (r : Repo) (fuel : Nat) (ref t : String)
    (hne : ref ≠ "HEAD") (h : FirstReadable fs r.Base ref ("ref: " ++ t)) :
    r.ResolveRef fs (fuel + 1) ref = .ret (TrimSpace ("ref: " ++ t), none) ∧
      (TrimSpace ("ref: " ++ t)).data.take 4 = ['r', 'e', 'f', ':'] :=
  ⟨ResolveRef_of_FirstReadable fs r fuel ref _ hne h, TrimSpace_keeps_ref t⟩

/-- The theorem `ResolveRef_symbolic_not_chased` at the fixture: the branch
`sym`. -/
theorem ResolveRef_symbolic_not_chased_witness :
    fixtureRepo.ResolveRef fixtureFS (0 + 1) "sym" =
        .ret (TrimSpace ("ref: " ++ "refs/heads/master\n"), none) ∧
      (TrimSpace ("ref: " ++ "refs/heads/master\n")).data.take 4 = ['r', 'e', 'f', ':'] :=
  ResolveRef_symbolic_not_chased fixtureFS fixtureRepo 0 "sym" "refs/heads/master\n"
    (by decide) (Or.inl rfl)

/-- C6 fails as stated: the branch `sym` of the fixture has the content
`ref: refs/heads/master`, `ResolveRef("refs/heads/master")` is the id of the
commit, and `ResolveRef("sym")` is the text `ref: refs/heads/master`. -/
theorem ResolveRef_symbolic_branch_counterexample :
    fixtureFS.ReadFile (Join [fixtureRepo.Base, "refs", "heads", "sym"]) =
        .ok "ref: refs/heads/master\n" ∧
      fixtureRepo.ResolveRef fixtureFS 3 "refs/heads/master" =
        .ret ("bdae0e92f4a7ca0ec05b6c2decab9dc18361750b", none) ∧
      fixtureRepo.ResolveRef fixtureFS 3 "sym" = .ret ("ref: refs/heads/master", none) ∧
      fixtureRepo.ResolveRef fixtureFS 3 "sym" ≠
        fixtureRepo.ResolveRef fixtureFS 3 "refs/heads/master" :=
  ⟨rfl, by decide, by decide, by decide⟩

/-- What `resolveIndirect` does with a trimmed content `ref:` followed by
`rest`: it calls `ResolveRef` on the trimmed `rest`. -/
theorem resolveIndirect_symbolic (fs : FS) (r : Repo) (fuel : Nat)
    (path content rest : String)
    (hread : fs.ReadFile path = .ok content) (hsym : TrimSpace content = "ref:" ++ rest) :
    r.resolveIndirect fs (fuel + 1) path = r.ResolveRef fs fuel (TrimSpace rest) := by
  have hdata : ("ref:" ++ rest).data = ['r', 'e', 'f', ':'] ++ rest.data := by
    rw [String.data_append]
  have hlen : ¬ ("ref:" ++ rest).utf8ByteSize < 4 := by
    have hgo : ("ref:" ++ rest).utf8ByteSize =
        String.utf8ByteSize.go ("ref:" ++ rest).data := rfl
    have hsize : String.utf8ByteSize.go (['r', 'e', 'f', ':'] ++ rest.data) =
        String.utf8ByteSize.go rest.data + 1 + 1 + 1 + 1 := rfl
    rw [hgo, hdata, hsize]
    omega
  have htake : ("ref:" ++ rest).data.take 4 = ['r', 'e', 'f', ':'] := by
    rw [hdata]; rfl
  have hdrop : (⟨("ref:" ++ rest).data.drop 4⟩ : String) = rest := by
    rw [hdata]; rfl
  simp only [Repo.resolveIndirect, hread, hsym, hlen, htake, hdrop, if_true, if_false]

/-- C7, as the code has it: when `base/HEAD` has the trimmed content `ref:`
followed by a target, the target (trimmed) is not `HEAD`, neither
`base/refs/heads/<target>` nor `base/refs/tags/<target>` is readable and
`base/<target>` is readable, `ResolveRef("HEAD")` returns the trimmed content of
`base/<target>`; and when the trimmed content of `base/HEAD` has at least four
bytes and does not begin with `ref:`, `ResolveRef("HEAD")` returns it. -/
theorem ResolveRef_HEAD_follows_target (fs : FS) (r : Repo) (fuel : Nat) (content : String)
    (hread : fs.ReadFile (Join [r.Base, "HEAD"]) = .ok content) :
    (∀ rest data : String, TrimSpace content = "ref:" ++ rest →
        TrimSpace rest ≠ "HEAD" →
        Unreadable fs (Join [r.Base, "refs", "heads", TrimSpace rest]) →
        Unreadable fs (Join [r.Base, "refs", "tags", TrimSpace rest]) →
        fs.ReadFile (Join [r.Base, TrimSpace rest]) = .ok data →
        r.ResolveRef fs (fuel + 3) "HEAD" = .ret (TrimSpace data, none)) ∧
    (4 ≤ (TrimSpace content).utf8ByteSize →
        (TrimSpace content).data.take 4 ≠ ['r', 'e', 'f', ':'] →
        r.ResolveRef fs (fuel + 2) "HEAD" = .ret (TrimSpace content, none)) := by
  constructor
  · intro rest data hsym hne hheads htags hbase
    rw [ResolveRef_HEAD_eq, resolveIndirect_symbolic fs r (fuel + 1) _ content rest hread hsym]
    exact ResolveRef_of_FirstReadable fs r fuel _ data hne (Or.inr (Or.inr ⟨hheads, htags, hbase⟩))
  · intro hlen hpre
    rw [ResolveRef_HEAD_eq]
    have hlen' : ¬ (TrimSpace content).utf8ByteSize < 4 := by omega
    simp only [Repo.resolveIndirect, hread, hlen', hpre, if_false]

/-- The theorem `ResolveRef_HEAD_follows_target` at the fixture: `HEAD` names
`refs/heads/master`. -/
theorem ResolveRef_HEAD_follows_target_witness :
    fixtureRepo.ResolveRef fixtureFS (0 + 3) "HEAD" =
      .ret (TrimSpace "bdae0e92f4a7ca0ec05b6c2decab9dc18361750b\n", none) :=
  (ResolveRef_HEAD_follows_target fixtureFS fixtureRepo 0 "ref: refs/heads/master\n" rfl).1
    " refs/heads/master" "bdae0e92f4a7ca0ec05b6c2decab9dc18361750b\n"
    (by decide) (by decide) ⟨_, rfl⟩ ⟨_, rfl⟩ rfl

/-- C7 fails as stated: `base/HEAD` is `ref: refs/heads/master` and
`base/refs/heads/master` is a direct ref, yet `ResolveRef("HEAD")` returns the
content of `base/refs/heads/refs/heads/master`, which is consulted first. -/
theorem ResolveRef_HEAD_shadowed_counterexample :
    shadowFS.ReadFile (Join [fixtureRepo.Base, "HEAD"]) = .ok "ref: refs/heads/master\n" ∧
      shadowFS.ReadFile (Join [fixtureRepo.Base, "refs/heads/master"]) =
        .ok "bdae0e92f4a7ca0ec05b6c2decab9dc18361750b\n" ∧
      fixtureRepo.ResolveRef shadowFS 3 "HEAD" =
        .ret ("6fe9de222caf76a787e0df553264d0d9f3bc4ead", none) ∧
      fixtureRepo.ResolveRef shadowFS 3 "HEAD" ≠
        .ret (TrimSpace "bdae0e92f4a7ca0ec05b6c2decab9dc18361750b\n", none) :=
  ⟨rfl, rfl, by decide, by decide⟩

/-- C8, as the code has it: when `base/HEAD` cannot be read (in particular
when it does not exist), `ResolveRef("HEAD")` fails: it returns the empty string
and the error of the failed read itself, which is not `ErrUnknownRef`. -/
theorem ResolveRef_HEAD_unreadable (fs : FS) (r : Repo) (fuel : Nat) (e : PathError)
    (hread : fs.ReadFile (Join [r.Base, "HEAD"]) = .error e) :
    r.ResolveRef fs (fuel + 2) "HEAD" = .ret ("", some (Err.os e)) ∧
      Err.os e ≠ Err.ErrUnknownRef := by
  refine ⟨?_, fun h => Err.noConfusion h⟩
  rw [ResolveRef_HEAD_eq]
  simp only [Repo.resolveIndirect, hread]

/-- The theorem `ResolveRef_HEAD_unreadable` at the git directory without
`HEAD`. -/
theorem ResolveRef_HEAD_unreadable_witness :
    bareRepo.ResolveRef bareFS (0 + 2) "HEAD" =
        .ret ("", some (Err.os ⟨"open", "/proj.git/HEAD", "no such file or directory"⟩)) ∧
      Err.os ⟨"open", "/proj.git/HEAD", "no such file or directory"⟩ ≠ Err.ErrUnknownRef :=
  ResolveRef_HEAD_unreadable bareFS bareRepo 0
    ⟨"open", "/proj.git/HEAD", "no such file or directory"⟩ rfl

/-- C8 fails as stated: in the git directory without `HEAD`, the error of
`ResolveRef("HEAD")` is the error of the read, not `ErrUnknownRef`. -/
theorem ResolveRef_HEAD_missing_counterexample :
    bareFS.ReadFile (Join [bareRepo.Base, "HEAD"]) =
        .error ⟨"open", "/proj.git/HEAD", "no such file or directory"⟩ ∧
      bareRepo.ResolveRef bareFS 3 "HEAD" =
        .ret ("", some (Err.os ⟨"open", "/proj.git/HEAD", "no such file or directory"⟩)) ∧
      bareRepo.ResolveRef bareFS 3 "HEAD" ≠ .ret ("", some Err.ErrUnknownRef) :=
  ⟨rfl, by decide, by decide⟩

/-- C9: for a ref other than `HEAD` (a 40-hex object id, for one) such that
none of `refs/heads/<ref>`, `refs/tags/<ref>` and `base/<ref>` can be read,
`ResolveRef` returns the empty string and `ErrUnknownRef`: the input is not
echoed back. -/
theorem ResolveRef_unknown (fs : FS) (r : Repo) (fuel : Nat) (ref : String)
    (hne : ref ≠ "HEAD")
    (hheads : Unreadable fs (Join [r.Base, "refs", "heads", ref]))
    (htags : Unreadable fs (Join [r.Base, "refs", "tags", ref]))
    (hbase : Unreadable fs (Join [r.Base, ref])) :
    r.ResolveRef fs (fuel + 1) ref = .ret ("", some Err.ErrUnknownRef) := by
  obtain ⟨e1, h1⟩ := hheads
  obtain ⟨e2, h2⟩ := htags
  obtain ⟨e3, h3⟩ := hbase
  rw [ResolveRef_of_ne_HEAD fs r fuel ref hne]
  simp [refDirs, readRefDirs, h1, h2, h3]

/-- The theorem `ResolveRef_unknown` at the fixture, for the id of a blob. -/
theorem ResolveRef_unknown_witness :
    fixtureRepo.ResolveRef fixtureFS (0 + 1) "467c21715563cbf5bf52ae79616e02914b89e9f1" =
      .ret ("", some Err.ErrUnknownRef) :=
  ResolveRef_unknown fixtureFS fixtureRepo 0 "467c21715563cbf5bf52ae79616e02914b89e9f1"
    (by decide) ⟨_, rfl⟩ ⟨_, rfl⟩ ⟨_, rfl⟩

/-- C10 at the fixture: the branch `master` is a direct ref and
`ResolveRef("master")` is the id `bdae0e92...`, but `ResolveRef` of that id
returns the empty string and `ErrUnknownRef` instead of the id, against the
test `TestRepoResolveRefSHA`. -/
theorem ResolveRef_id_not_round_tripped :
    fixtureRepo.ResolveRef fixtureFS 3 "master" =
        .ret ("bdae0e92f4a7ca0ec05b6c2decab9dc18361750b", none) ∧
      fixtureRepo.ResolveRef fixtureFS 3 "bdae0e92f4a7ca0ec05b6c2decab9dc18361750b" =
        .ret ("", some Err.ErrUnknownRef) := by
  decide

/-! ### Fuel -/

/-- A call of `ResolveRef` or `resolveIndirect` that ends within the bound ends
the same way under a larger bound. -/
theorem fuel_mono (fs : FS) (r : Repo) (fuel : Nat) :
    (∀ ref : String, r.ResolveRef fs fuel ref ≠ .outOfFuel →
        r.ResolveRef fs (fuel + 1) ref = r.ResolveRef fs fuel ref) ∧
    (∀ path : String, r.resolveIndirect fs fuel path ≠ .outOfFuel →
        r.resolveIndirect fs (fuel + 1) path = r.resolveIndirect fs fuel path) := by
  induction fuel with
  | zero =>
    constructor
    · intro ref h; exact absurd (by simp [Repo.ResolveRef]) h
    · intro path h; exact absurd (by simp [Repo.resolveIndirect]) h
  | succ n ih =>
    constructor
    · intro ref h
      by_cases hH : ref = "HEAD"
      · subst hH
        rw [ResolveRef_HEAD_eq] at h ⊢
        rw [ResolveRef_HEAD_eq]
        exact ih.2 _ h
      · rw [ResolveRef_of_ne_HEAD fs r (n + 1) ref hH, ResolveRef_of_ne_HEAD fs r n ref hH]
    · intro path h
      cases hread : fs.ReadFile path with
      | error e => simp only [Repo.resolveIndirect, hread]
      | ok data =>
        simp only [Repo.resolveIndirect, hread] at h ⊢
        by_cases hlen : (TrimSpace data).utf8ByteSize < 4
        · simp only [hlen, if_true]
        · simp only [hlen, if_false] at h ⊢
          by_cases hpre : (TrimSpace data).data.take 4 = ['r', 'e', 'f', ':']
          · simp only [hpre, if_true] at h ⊢
            exact ih.1 _ h
          · simp only [hpre, if_false]

/-! ### Order of the loaders -/

/-- A chain in which every loader has the object `obj` or returns `ErrNotExist`,
and some loader has it, returns `obj`. -/
theorem loadFrom_of_unique (id : String) (obj : Object) (loaders : List Loader)
    (hall : ∀ l ∈ loaders, l id = .ok obj ∨ l id = .error Err.ErrNotExist)
    (hex : ∃ l ∈ loaders, l id = .ok obj) :
    loadFrom id loaders = (some obj, none) := by
  induction loaders with
  | nil =>
    obtain ⟨l, hl, _⟩ := hex
    exact absurd hl (List.not_mem_nil l)
  | cons l rest ih =>
    rcases hall l (List.mem_cons_self _ _) with hok | hno
    · simp [loadFrom, hok]
    · have hrest : ∃ x ∈ rest, x id = .ok obj := by
        obtain ⟨x, hx, hxo⟩ := hex
        rcases List.mem_cons.mp hx with hxl | hxr
        · subst hxl
          rw [hno] at hxo
          cases hxo
        · exact ⟨x, hxr, hxo⟩
      simp [loadFrom, hno, ih (fun x hx => hall x (List.mem_cons_of_mem _ hx)) hrest]

/-- C13: when one loader of the list returns the object `obj` for `id` and
every other loader returns `ErrNotExist` for `id`, `Repo.LoadObject(id)` returns
`obj` for every permutation of the list. -/
theorem LoadObject_order_independent (base id : String) (obj : Object)
    (pre post : List Loader) (l : Loader)
    (hl : l id = .ok obj)
    (hothers : ∀ p ∈ pre ++ post, p id = .error Err.ErrNotExist)
    (loaders : List Loader) (hperm : loaders.Perm (pre ++ l :: post)) :
    Repo.LoadObject ⟨base, loaders⟩ id = (some obj, none) := by
  apply loadFrom_of_unique
  · intro x hx
    have hx' : x ∈ pre ++ l :: post := hperm.mem_iff.mp hx
    rcases List.mem_append.mp hx' with hp | hp
    · exact Or.inr (hothers x (List.mem_append_left _ hp))
    · rcases List.mem_cons.mp hp with hxl | hxr
      · subst hxl; exact Or.inl hl
      · exact Or.inr (hothers x (List.mem_append_right _ hxr))
  · exact ⟨l, hperm.mem_iff.mpr (by simp), hl⟩

/-- The theorem `LoadObject_order_independent` at the fixture: the root tree is
in the pack loader only, and is found with the pack loader first as well. -/
theorem LoadObject_order_independent_witness :
    Repo.LoadObject ⟨"/proj/.git", [emptyPack, fixturePack, fixtureLoose]⟩
        "bbbbbbbbbbbbbbbbbbbbbbbbbbbbbbbbbbbbbbbb" =
      (some (treeObject fixtureRootTree), none) :=
  LoadObject_order_independent "/proj/.git" "bbbbbbbbbbbbbbbbbbbbbbbbbbbbbbbbbbbbbbbb"
    (treeObject fixtureRootTree) [fixtureLoose] [emptyPack] fixturePack rfl
    (by
      intro p hp
      rcases List.mem_append.mp hp with h | h
      · rw [List.mem_singleton] at h; subst h; rfl
      · rw [List.mem_singleton] at h; subst h; rfl)
    [emptyPack, fixturePack, fixtureLoose]
    (by
      have h1 : [emptyPack, fixturePack, fixtureLoose].Perm
          [fixturePack, fixtureLoose, emptyPack] := @List.perm_append_comm _ [emptyPack] [fixturePack, fixtureLoose]
      have h2 : [fixturePack, fixtureLoose, emptyPack].Perm
          [fixtureLoose, fixturePack, emptyPack] := List.Perm.swap _ _ _
      exact h1.trans h2)

/-! ### Lookup order of the ref files -/

/-- C15: for a ref `r` other than `HEAD`, `ResolveRef(r)` consults
`refs/heads/r`, then `refs/tags/r`, then `base/r`, and the first readable file
wins: its trimmed content is returned with no error, whatever the files after
it hold and whatever the content is (it need not be a 40-hex string). -/
theorem ResolveRef_first_readable_wins (fs : FS) (r : Repo) (fuel : Nat) (ref : String)
    (hne : ref ≠ "HEAD") :
    (∀ data : String, fs.ReadFile (Join [r.Base, "refs", "heads", ref]) = .ok data →
        r.ResolveRef fs (fuel + 1) ref = .ret (TrimSpace data, none)) ∧
    (∀ data : String, Unreadable fs (Join [r.Base, "refs", "heads", ref]) →
        fs.ReadFile (Join [r.Base, "refs", "tags", ref]) = .ok data →
        r.ResolveRef fs (fuel + 1) ref = .ret (TrimSpace data, none)) ∧
    (∀ data : String, Unreadable fs (Join [r.Base, "refs", "heads", ref]) →
        Unreadable fs (Join [r.Base, "refs", "tags", ref]) →
        fs.ReadFile (Join [r.Base, ref]) = .ok data →
        r.ResolveRef fs (fuel + 1) ref = .ret (TrimSpace data, none)) := by
  refine ⟨?_, ?_, ?_⟩
  · intro data h1
    exact ResolveRef_of_FirstReadable fs r fuel ref data hne (Or.inl h1)
  · intro data h1 h2
    exact ResolveRef_of_FirstReadable fs r fuel ref data hne (Or.inr (Or.inl ⟨h1, h2⟩))
  · intro data h1 h2 h3
    exact ResolveRef_of_FirstReadable fs r fuel ref data hne (Or.inr (Or.inr ⟨h1, h2, h3⟩))

/-- The theorem `ResolveRef_first_readable_wins` at the fixture: there is no
branch `before`, so the tag `before` is read. -/
theorem ResolveRef_first_readable_wins_witness :
    fixtureRepo.ResolveRef fixtureFS (0 + 1) "before" =
      .ret (TrimSpace "6fe9de222caf76a787e0df553264d0d9f3bc4ead\n", none) :=
  (ResolveRef_first_readable_wins fixtureFS fixtureRepo 0 "before" (by decide)).2.1
    "6fe9de222caf76a787e0df553264d0d9f3bc4ead\n" ⟨_, rfl⟩ rfl

/-! ### No normalization of the path -/

theorem splitChars_ne_nil (sep : Char) (cs : List Char) : splitChars sep cs ≠ [] := by
  cases cs with
  | nil => simp [splitChars]
  | cons c rest =>
    by_cases hc : c = sep
    · simp [splitChars, hc]
    · cases hsp : splitChars sep rest <;> simp [splitChars, hc, hsp]

/-- A path that begins with a slash has an empty first segment. -/
theorem Split_leading_slash (p : String) : Split ("/" ++ p) = "" :: Split p := by
  have hdata : ("/" ++ p).data = '/' :: p.data := by rw [String.data_append]; rfl
  simp only [Split, hdata, splitChars, if_true, List.map_cons]
  rfl

/-- C16: `Resolve` splits the path on `/` only and looks every segment up by
its exact name, the empty one included.  When the ref resolves to a commit
whose root tree has no entry named `""`, `Resolve(ref, "")` and
`Resolve(ref, "/" + p)` fail with `ErrNotExist` for every `p`. -/
theorem Resolve_no_normalization (fs : FS) (r : Repo) (fuel : Nat) (ref refId : String)
    (c : Commit) (T0 : Tree)
    (href : r.ResolveRef fs fuel ref = .ret (refId, none))
    (hc : LoadsCommit r refId c) (ht : LoadsTree r c.Tree T0)
    (hno : T0.Entries.lookup "" = none) :
    (∀ path : String, r.Resolve fs fuel ref path =
        match (Split path).getLast? with
        | none => .panic "slice bounds out of range"
        | some final => resolveSegments r final T0 (Split path).dropLast) ∧
    r.Resolve fs fuel ref "" = .ret ("", some Err.ErrNotExist) ∧
    (∀ p : String, r.Resolve fs fuel ref ("/" ++ p) = .ret ("", some Err.ErrNotExist)) := by
  refine ⟨fun path => Resolve_of_root fs r fuel ref path refId c T0 href hc ht, ?_, ?_⟩
  · rw [Resolve_of_root fs r fuel ref _ refId c T0 href hc ht]
    have hs : Split "" = [""] := rfl
    rw [hs]
    simp [resolveSegments, hno]
  · intro p
    rw [Resolve_of_root fs r fuel ref _ refId c T0 href hc ht, Split_leading_slash]
    have hne : Split p ≠ [] := by
      simp only [Split, ne_eq, List.map_eq_nil_iff]
      exact splitChars_ne_nil _ _
    rcases List.eq_nil_or_concat (Split p) with hnil | ⟨init, last, hcat⟩
    · exact absurd hnil hne
    · have hsp : Split p = init ++ [last] := by simpa using hcat
      have hcons : "" :: (init ++ [last]) = ("" :: init) ++ [last] := rfl
      rw [hsp, hcons, List.getLast?_concat, List.dropLast_concat]
      simp [resolveSegments, hno]

/-- The theorem `Resolve_no_normalization` at the fixture: `Resolve("HEAD",
"Procfile")` succeeds and `Resolve("HEAD", "/Procfile")` fails. -/
theorem Resolve_no_normalization_witness :
    fixtureRepo.Resolve fixtureFS 3 "HEAD" "Procfile" =
        .ret ("467c21715563cbf5bf52ae79616e02914b89e9f1", none) ∧
      fixtureRepo.Resolve fixtureFS 3 "HEAD" ("/" ++ "Procfile") =
        .ret ("", some Err.ErrNotExist) :=
  ⟨by decide,
    (Resolve_no_normalization fixtureFS fixtureRepo 3 "HEAD"
      "bdae0e92f4a7ca0ec05b6c2decab9dc18361750b" fixtureCommit fixtureRootTree
      (by decide)
      ⟨commitObject fixtureCommit, rfl, rfl, rfl⟩
      ⟨treeObject fixtureRootTree, rfl, rfl, rfl⟩
      rfl).2.2 "Procfile"⟩

/-! ### Short contents of `HEAD` -/

/-- A trimmed content of fewer than four bytes makes the slice `id[0:4]` of
`resolveIndirect` panic. -/
theorem resolveIndirect_short (fs : FS) (r : Repo) (fuel : Nat) (path content : String)
    (hread : fs.ReadFile path = .ok content)
    (hshort : (TrimSpace content).utf8ByteSize < 4) :
    r.resolveIndirect fs (fuel + 1) path = .panic "slice bounds out of range" := by
  simp only [Repo.resolveIndirect, hread, hshort, if_true]

/-- C17 at three contents of `base/HEAD`: for an empty file, a file of white
space and the content `abc`, `ResolveRef("HEAD")` does not return: the slice
`id[0:4]` of `resolveIndirect` is out of range and the call panics. -/
theorem ResolveRef_HEAD_short_panics :
    fixtureRepo.ResolveRef (headFS "") 3 "HEAD" = .panic "slice bounds out of range" ∧
      fixtureRepo.ResolveRef (headFS " \n") 3 "HEAD" = .panic "slice bounds out of range" ∧
      fixtureRepo.ResolveRef (headFS "abc\n") 3 "HEAD" =
        .panic "slice bounds out of range" := by
  decide

/-! ### Termination of the ref resolver -/

/-- A call of `ResolveRef` that ends within the bound ends the same way under
every larger bound. -/
theorem fuel_mono_add (fs : FS) (r : Repo) (fuel : Nat) (ref : String)
    (h : r.ResolveRef fs fuel ref ≠ .outOfFuel) (k : Nat) :
    r.ResolveRef fs (fuel + k) ref = r.ResolveRef fs fuel ref := by
  induction k with
  | zero => rfl
  | succ k ih =>
    have hk : r.ResolveRef fs (fuel + k) ref ≠ .outOfFuel := by rw [ih]; exact h
    rw [← Nat.add_assoc, (fuel_mono fs r (fuel + k)).1 ref hk, ih]

/-- A ref other than `HEAD` is resolved without a nested call. -/
theorem ResolveRef_ne_HEAD_ends (fs : FS) (r : Repo) (fuel : Nat) (ref : String)
    (hne : ref ≠ "HEAD") : r.ResolveRef fs (fuel + 1) ref ≠ .outOfFuel := by
  rw [ResolveRef_of_ne_HEAD fs r fuel ref hne]
  cases readRefDirs fs r.Base ref refDirs with
  | some id => simp
  | none =>
    cases fs.ReadFile (Join [r.Base, ref]) with
    | ok data => simp
    | error e => simp

/-- When `base/HEAD` names `HEAD` itself, `ResolveRef("HEAD")` is still running
at every depth. -/
theorem ResolveRef_HEAD_cycle (fs : FS) (r : Repo) (h : HeadNamesHead fs r.Base) :
    NeverEnds fs r "HEAD" := by
  obtain ⟨content, rest, hread, hsym, htarget⟩ := h
  have step : ∀ n : Nat, r.ResolveRef fs (n + 2) "HEAD" = r.ResolveRef fs n "HEAD" := by
    intro n
    rw [ResolveRef_HEAD_eq, resolveIndirect_symbolic fs r n _ content rest hread hsym, htarget]
  have both : ∀ n : Nat, r.ResolveRef fs n "HEAD" = .outOfFuel ∧
      r.ResolveRef fs (n + 1) "HEAD" = .outOfFuel := by
    intro n
    induction n with
    | zero =>
      refine ⟨by simp [Repo.ResolveRef], ?_⟩
      rw [ResolveRef_HEAD_eq]
      simp [Repo.resolveIndirect]
    | succ n ih => exact ⟨ih.2, by rw [step n]; exact ih.1⟩
  exact fun fuel => (both fuel).1

/-- The `HEAD` of the fixture names a branch, not `HEAD`. -/
theorem fixture_HEAD_not_cyclic : ¬ HeadNamesHead fixtureFS fixtureRepo.Base := by
  rintro ⟨content, rest, hread, hsym, htarget⟩
  have h0 : fixtureFS.ReadFile (Join [fixtureRepo.Base, "HEAD"]) =
      .ok "ref: refs/heads/master\n" := rfl
  rw [h0] at hread
  cases hread
  have h1 : TrimSpace "ref: refs/heads/master\n" = "ref:" ++ " refs/heads/master" := by decide
  rw [h1] at hsym
  have hdata := congrArg String.data hsym
  rw [String.data_append, String.data_append] at hdata
  have hrest : rest = " refs/heads/master" := by
    apply String.ext
    exact (List.append_cancel_left hdata).symm
  subst hrest
  revert htarget
  decide

/-- C12, as the code has it: unless `base/HEAD` is a symbolic ref that names
`HEAD` itself, `ResolveRef` ends within three nested calls for every ref, and
ends the same way under every larger bound: only `HEAD` is chased, by one
step. -/
theorem ResolveRef_ends_unless_HEAD_names_HEAD (fs : FS) (r : Repo) (ref : String)
    (h : ref = "HEAD" → ¬ HeadNamesHead fs r.Base) :
    r.ResolveRef fs 3 ref ≠ .outOfFuel ∧
      ∀ k : Nat, r.ResolveRef fs (3 + k) ref = r.ResolveRef fs 3 ref := by
  have hends : r.ResolveRef fs 3 ref ≠ .outOfFuel := by
    by_cases hH : ref = "HEAD"
    · have hnot := h hH
      subst hH
      rw [ResolveRef_HEAD_eq]
      cases hread : fs.ReadFile (Join [r.Base, "HEAD"]) with
      | error e => simp [Repo.resolveIndirect, hread]
      | ok data =>
        simp only [Repo.resolveIndirect, hread]
        by_cases hlen : (TrimSpace data).utf8ByteSize < 4
        · simp [hlen]
        · by_cases hpre : (TrimSpace data).data.take 4 = ['r', 'e', 'f', ':']
          · simp only [hlen, hpre, if_true, if_false]
            apply ResolveRef_ne_HEAD_ends
            intro htarget
            apply hnot
            refine ⟨data, ⟨(TrimSpace data).data.drop 4⟩, hread, ?_, htarget⟩
            apply String.ext
            rw [String.data_append]
            have hd : ("ref:" : String).data = ['r', 'e', 'f', ':'] := rfl
            rw [hd, ← hpre, List.take_append_drop]
          · simp [hlen, hpre]
    · exact ResolveRef_ne_HEAD_ends fs r 2 ref hH
  exact ⟨hends, fun k => fuel_mono_add fs r 3 ref hends k⟩

/-- The theorem `ResolveRef_ends_unless_HEAD_names_HEAD` at the fixture, whose
`HEAD` names `refs/heads/master`. -/
theorem ResolveRef_ends_unless_HEAD_names_HEAD_witness :
    fixtureRepo.ResolveRef fixtureFS 3 "HEAD" ≠ .outOfFuel ∧
      ∀ k : Nat, fixtureRepo.ResolveRef fixtureFS (3 + k) "HEAD" =
        fixtureRepo.ResolveRef fixtureFS 3 "HEAD" :=
  ResolveRef_ends_unless_HEAD_names_HEAD fixtureFS fixtureRepo "HEAD"
    (fun _ => fixture_HEAD_not_cyclic)

/-- C12 fails as stated: with `base/HEAD` of content `ref: HEAD`,
`ResolveRef("HEAD")` returns no error at all: the call is still running at
every depth of nested calls (at depth 50, for one). -/
theorem ResolveRef_self_HEAD_counterexample :
    (headFS "ref: HEAD\n").ReadFile (Join [fixtureRepo.Base, "HEAD"]) = .ok "ref: HEAD\n" ∧
      fixtureRepo.ResolveRef (headFS "ref: HEAD\n") 50 "HEAD" = .outOfFuel ∧
      NeverEnds (headFS "ref: HEAD\n") fixtureRepo "HEAD" :=
  ⟨rfl, by decide,
    ResolveRef_HEAD_cycle (headFS "ref: HEAD\n") fixtureRepo
      ⟨"ref: HEAD\n", " HEAD", rfl, by decide, by decide⟩⟩

/-! ### Opening a repository -/

/-- When `path/.git/objects` cannot be examined, `OpenRepo` fails with the error
of `os.Stat`. -/
theorem OpenRepo_of_stat_error (h : Host) (path : String) (e : PathError)
    (hstat : h.Stat (Join [path, ".git", "objects"]) = .error e) :
    OpenRepo h path = .ret (none, some (Err.os e)) := by
  simp [OpenRepo, hstat]

/-- C11 at the bare repository `/proj.git` of the fixture: `/proj.git/objects`
exists and `/proj.git/.git/objects` does not, and `OpenRepo("/proj.git")`
returns no repository but the error of `os.Stat` on `/proj.git/.git/objects`,
against the tests that open `fixtures/proj.git`. -/
theorem OpenRepo_bare_fails :
    fixtureHost.Stat (Join ["/proj.git", "objects"]) = .ok () ∧
      fixtureHost.Stat (Join ["/proj.git", ".git", "objects"]) =
        .error ⟨"stat", "/proj.git/.git/objects", "no such file or directory"⟩ ∧
      OpenRepo fixtureHost "/proj.git" =
        .ret (none,
          some (Err.os ⟨"stat", "/proj.git/.git/objects", "no such file or directory"⟩)) :=
  ⟨rfl, rfl, rfl⟩

/-! ### The list of loaders -/

/-- What `filepath.Ext` returns is empty or a suffix of the path. -/
theorem extScan_suffix (rev acc : List Char) :
    extScan rev acc = [] ∨ ∃ pre : List Char, rev.reverse ++ acc = pre ++ extScan rev acc := by
  induction rev generalizing acc with
  | nil => exact Or.inl rfl
  | cons c rest ih =>
    by_cases hs : c = '/'
    · exact Or.inl (by simp [extScan, hs])
    · by_cases hd : c = '.'
      · refine Or.inr ⟨rest.reverse, ?_⟩
        subst hd
        simp [extScan]
      · have hstep : extScan (c :: rest) acc = extScan rest (c :: acc) := by
          simp [extScan, hs, hd]
        rw [hstep]
        rcases ih (c :: acc) with h | ⟨pre, hpre⟩
        · exact Or.inl h
        · exact Or.inr ⟨pre, by simpa using hpre⟩

/-- A name of extension `.idx` ends in the four characters `.idx`. -/
theorem Ext_idx_suffix (n : String) (h : Ext n = ".idx") :
    ∃ pre : List Char, n.data = pre ++ ['.', 'i', 'd', 'x'] := by
  have hdata : extScan n.data.reverse [] = ['.', 'i', 'd', 'x'] := congrArg String.data h
  rcases extScan_suffix n.data.reverse [] with hnil | ⟨pre, hpre⟩
  · rw [hnil] at hdata
    cases hdata
  · refine ⟨pre, ?_⟩
    rw [hdata] at hpre
    simpa using hpre

/-- The slice `n[:len(n)-4]` is in bounds for a name of extension `.idx`. -/
theorem Ext_idx_len (n : String) (h : Ext n = ".idx") : ¬ n.utf8ByteSize < 4 := by
  obtain ⟨pre, hpre⟩ := Ext_idx_suffix n h
  have hgo : n.utf8ByteSize = String.utf8ByteSize.go n.data := rfl
  have hsize : String.utf8ByteSize.go (pre ++ ['.', 'i', 'd', 'x']) =
      String.utf8Len pre + 4 := by
    rw [String.utf8ByteSize.go_eq, String.utf8Len_append]
    rfl
  rw [hgo, hpre, hsize]
  omega

/-- The slice `n[:len(n)-4]` is the name without its extension `.idx`. -/
theorem dropExt4_append (n : String) (h : Ext n = ".idx") : n = dropExt4 n ++ ".idx" := by
  obtain ⟨pre, hpre⟩ := Ext_idx_suffix n h
  apply String.ext
  rw [String.data_append]
  have hd : (".idx" : String).data = ['.', 'i', 'd', 'x'] := rfl
  simp only [dropExt4, hd, hpre]
  simp

theorem idxEntries_cons_idx (n : String) (files : List String) (h : Ext n = ".idx") :
    idxEntries (n :: files) = n :: idxEntries files := by
  simp [idxEntries, List.filter_cons, h]

theorem idxEntries_cons_other (n : String) (files : List String) (h : ¬ Ext n = ".idx") :
    idxEntries (n :: files) = idxEntries files := by
  simp [idxEntries, List.filter_cons, h]

/-- One step of the loop at an entry of extension `.idx`. -/
theorem initPacks_cons_idx (h : Host) (packs n : String) (files : List String)
    (acc : List Loader) (hidx : Ext n = ".idx") :
    initPacks h packs (n :: files) acc =
      match h.LoadPack (Join [packs, dropExt4 n]) with
      | .error err => .ret (.error err)
      | .ok pack => initPacks h packs files (acc ++ [pack]) := by
  simp only [initPacks, hidx, Ext_idx_len n hidx, if_true, if_false]

/-- One step of the loop at an entry of another extension. -/
theorem initPacks_cons_other (h : Host) (packs n : String) (files : List String)
    (acc : List Loader) (hidx : ¬ Ext n = ".idx") :
    initPacks h packs (n :: files) acc = initPacks h packs files acc := by
  simp only [initPacks, hidx, if_false]

/-- When every entry of extension `.idx` loads, the loop ends with the loaders
it started from followed by one pack loader per such entry, in order. -/
theorem initPacks_ok (h : Host) (packs : String) (files : List String) :
    ∀ (acc ps : List Loader), List.Forall₂ (PackOf h packs) (idxEntries files) ps →
      initPacks h packs files acc = .ret (.ok (acc ++ ps)) := by
  induction files with
  | nil =>
    intro acc ps hps
    cases hps
    simp [initPacks]
  | cons n files ih =>
    intro acc ps hps
    by_cases hidx : Ext n = ".idx"
    · rw [idxEntries_cons_idx n files hidx] at hps
      cases hps with
      | cons hp hrest =>
        rw [initPacks_cons_idx h packs n files acc hidx]
        have hp' : h.LoadPack (Join [packs, dropExt4 n]) = .ok _ := hp
        rw [hp']
        simp only
        rw [ih _ _ hrest, List.append_assoc, List.singleton_append]
    · rw [idxEntries_cons_other n files hidx] at hps
      rw [initPacks_cons_other h packs n files acc hidx]
      exact ih acc ps hps

/-- The loop returns the error of the first `LoadPack` that fails. -/
theorem initPacks_error (h : Host) (packs n : String) (post : List String) (err : Err)
    (hidx : Ext n = ".idx") (hfail : h.LoadPack (Join [packs, dropExt4 n]) = .error err)
    (pre : List String) :
    ∀ (acc ps : List Loader), List.Forall₂ (PackOf h packs) (idxEntries pre) ps →
      initPacks h packs (pre ++ n :: post) acc = .ret (.error err) := by
  induction pre with
  | nil =>
    intro acc ps _
    rw [List.nil_append, initPacks_cons_idx h packs n post acc hidx, hfail]
  | cons m pre ih =>
    intro acc ps hps
    by_cases hm : Ext m = ".idx"
    · rw [idxEntries_cons_idx m pre hm] at hps
      cases hps with
      | cons hp hrest =>
        rw [List.cons_append, initPacks_cons_idx h packs m _ acc hm]
        have hp' : h.LoadPack (Join [packs, dropExt4 m]) = .ok _ := hp
        rw [hp']
        exact ih _ _ hrest
    · rw [idxEntries_cons_other m pre hm] at hps
      rw [List.cons_append, initPacks_cons_other h packs m _ acc hm]
      exact ih acc ps hps

/-- The loop always returns: with the list of loaders described by
`initPacks_ok`, or with an error of `LoadPack`. -/
theorem initPacks_returns (h : Host) (packs : String) (files : List String) :
    ∀ acc : List Loader,
      (∃ ps : List Loader, List.Forall₂ (PackOf h packs) (idxEntries files) ps ∧
        initPacks h packs files acc = .ret (.ok (acc ++ ps))) ∨
      (∃ err : Err, initPacks h packs files acc = .ret (.error err)) := by
  induction files with
  | nil =>
    intro acc
    exact Or.inl ⟨[], List.Forall₂.nil, by simp [initPacks]⟩
  | cons n files ih =>
    intro acc
    by_cases hidx : Ext n = ".idx"
    · rw [initPacks_cons_idx h packs n files acc hidx, idxEntries_cons_idx n files hidx]
      cases hload : h.LoadPack (Join [packs, dropExt4 n]) with
      | error err => exact Or.inr ⟨err, rfl⟩
      | ok pack =>
        rcases ih (acc ++ [pack]) with ⟨ps, hps, heq⟩ | ⟨err, heq⟩
        · refine Or.inl ⟨pack :: ps, List.Forall₂.cons hload hps, ?_⟩
          simp only
          rw [heq, List.append_assoc, List.singleton_append]
        · exact Or.inr ⟨err, heq⟩
    · rw [initPacks_cons_other h packs n files acc hidx, idxEntries_cons_other n files hidx]
      exact ih acc

/-- What `initLoaders` does once the pack directory is listed. -/
theorem initLoaders_of_listing (h : Host) (r : Repo) (files : List String)
    (hdir : h.ReadDir (Join [r.Base, "objects/pack"]) = .ok files) :
    r.initLoaders h =
      match initPacks h (Join [r.Base, "objects/pack"]) files [h.LooseObject r.Base] with
      | .outOfFuel => .outOfFuel
      | .panic msg => .panic msg
      | .ret (.error err) => .ret (r, some err)
      | .ret (.ok loaders) => .ret (⟨r.Base, loaders⟩, none) := by
  simp only [Repo.initLoaders, hdir]

/-- A successful `OpenRepo` is a successful `initLoaders` on a repository of
base `path/.git` without loaders. -/
theorem OpenRepo_ok_inv (h : Host) (path : String) (repo : Repo)
    (hopen : OpenRepo h path = .ret (some repo, none)) :
    (Repo.mk (Join [path, ".git"]) []).initLoaders h = .ret (repo, none) := by
  unfold OpenRepo at hopen
  cases hstat : h.Stat (Join [path, ".git", "objects"]) with
  | error e => simp [hstat] at hopen
  | ok u =>
    simp only [hstat] at hopen
    cases hinit : (Repo.mk (Join [path, ".git"]) []).initLoaders h with
    | outOfFuel => simp [hinit] at hopen
    | panic msg => simp [hinit] at hopen
    | ret v =>
      obtain ⟨r', oe⟩ := v
      cases oe with
      | some err => simp [hinit] at hopen
      | none =>
        simp only [hinit, Run.ret.injEq, Prod.mk.injEq, Option.some.injEq, and_true] at hopen
        rw [hopen]

/-- C14: `initLoaders` always returns.  After a successful `initLoaders` (hence
after a successful `OpenRepo`) `Loaders` is the loose-object loader bound to
`Base` followed by exactly one pack loader per entry of `base/objects/pack`
whose extension is `.idx`, built from the name of the entry without its four
characters of extension, in the order of the listing; when the pack directory
cannot be listed `Loaders` is the loose loader alone; and when a `LoadPack`
fails, `initLoaders` returns that error and leaves the repository as it was. -/
theorem initLoaders_loaders (h : Host) (r : Repo) :
    (∃ v : Repo × Option Err, r.initLoaders h = .ret v) ∧
    (∀ r' : Repo, r.initLoaders h = .ret (r', none) →
      r'.Base = r.Base ∧ ∃ ps : List Loader, r'.Loaders = h.LooseObject r.Base :: ps ∧
        (((∃ e : PathError, h.ReadDir (Join [r.Base, "objects/pack"]) = .error e) ∧ ps = []) ∨
          ∃ files : List String, h.ReadDir (Join [r.Base, "objects/pack"]) = .ok files ∧
            List.Forall₂ (PackOf h (Join [r.Base, "objects/pack"])) (idxEntries files) ps)) ∧
    (∀ (files : List String) (ps : List Loader),
      h.ReadDir (Join [r.Base, "objects/pack"]) = .ok files →
      List.Forall₂ (PackOf h (Join [r.Base, "objects/pack"])) (idxEntries files) ps →
      r.initLoaders h = .ret (⟨r.Base, h.LooseObject r.Base :: ps⟩, none)) ∧
    (∀ e : PathError, h.ReadDir (Join [r.Base, "objects/pack"]) = .error e →
      r.initLoaders h = .ret (⟨r.Base, [h.LooseObject r.Base]⟩, none)) ∧
    (∀ (files pre : List String) (n : String) (post : List String) (ps : List Loader)
        (err : Err),
      h.ReadDir (Join [r.Base, "objects/pack"]) = .ok files → files = pre ++ n :: post →
      List.Forall₂ (PackOf h (Join [r.Base, "objects/pack"])) (idxEntries pre) ps →
      Ext n = ".idx" → h.LoadPack (Join [Join [r.Base, "objects/pack"], dropExt4 n]) = .error err →
      r.initLoaders h = .ret (r, some err)) ∧
    (∀ n : String, Ext n = ".idx" → n = dropExt4 n ++ ".idx") ∧
    (∀ (path : String) (repo : Repo), OpenRepo h path = .ret (some repo, none) →
      (Repo.mk (Join [path, ".git"]) []).initLoaders h = .ret (repo, none)) := by
  have hok : ∀ (files : List String) (ps : List Loader),
      h.ReadDir (Join [r.Base, "objects/pack"]) = .ok files →
      List.Forall₂ (PackOf h (Join [r.Base, "objects/pack"])) (idxEntries files) ps →
      r.initLoaders h = .ret (⟨r.Base, h.LooseObject r.Base :: ps⟩, none) := by
    intro files ps hdir hps
    rw [initLoaders_of_listing h r files hdir, initPacks_ok h _ files _ ps hps]
    rfl
  have herr : ∀ e : PathError, h.ReadDir (Join [r.Base, "objects/pack"]) = .error e →
      r.initLoaders h = .ret (⟨r.Base, [h.LooseObject r.Base]⟩, none) := by
    intro e hdir
    simp only [Repo.initLoaders, hdir]
  refine ⟨?_, ?_, hok, herr, ?_, dropExt4_append, OpenRepo_ok_inv h⟩
  · cases hdir : h.ReadDir (Join [r.Base, "objects/pack"]) with
    | error e => exact ⟨_, herr e hdir⟩
    | ok files =>
      rcases initPacks_returns h (Join [r.Base, "objects/pack"]) files [h.LooseObject r.Base]
        with ⟨ps, hps, _⟩ | ⟨err, heq⟩
      · exact ⟨_, hok files ps hdir hps⟩
      · exact ⟨(r, some err), by rw [initLoaders_of_listing h r files hdir, heq]⟩
  · intro r' hinit
    cases hdir : h.ReadDir (Join [r.Base, "objects/pack"]) with
    | error e =>
      rw [herr e hdir] at hinit
      simp only [Run.ret.injEq, Prod.mk.injEq, and_true] at hinit
      subst hinit
      exact ⟨rfl, [], rfl, Or.inl ⟨⟨e, rfl⟩, rfl⟩⟩
    | ok files =>
      rcases initPacks_returns h (Join [r.Base, "objects/pack"]) files [h.LooseObject r.Base]
        with ⟨ps, hps, _⟩ | ⟨err, heq⟩
      · rw [hok files ps hdir hps] at hinit
        simp only [Run.ret.injEq, Prod.mk.injEq, and_true] at hinit
        subst hinit
        exact ⟨rfl, ps, rfl, Or.inr ⟨files, rfl, hps⟩⟩
      · rw [initLoaders_of_listing h r files hdir, heq] at hinit
        simp at hinit
  · intro files pre n post ps err hdir hfiles hps hidx hfail
    subst hfiles
    rw [initLoaders_of_listing h r _ hdir,
      initPacks_error h _ n post err hidx hfail pre _ ps hps]

/-- The theorem `initLoaders_loaders` at the fixture: the loose loader, then the
loaders of `pack-1` and `pack-2`; the two `.pack` files give no loader. -/
theorem initLoaders_loaders_witness :
    (Repo.mk "/proj/.git" []).initLoaders fixtureHost =
      .ret (⟨"/proj/.git", [fixtureLoose, fixturePack, emptyPack]⟩, none) :=
  (initLoaders_loaders fixtureHost ⟨"/proj/.git", []⟩).2.2.1
    ["pack-1.idx", "pack-1.pack", "pack-2.idx", "pack-2.pack"] [fixturePack, emptyPack]
    rfl
    (show List.Forall₂ (PackOf fixtureHost "/proj/.git/objects/pack")
        ["pack-1.idx", "pack-2.idx"] [fixturePack, emptyPack] from
      List.Forall₂.cons rfl (List.Forall₂.cons rfl List.Forall₂.nil))

end Gitreader
